/-
Verification of the insurance fraud-detection pipeline
(packages/fraud_detection/src/fraud_detection/).

The Spark DataFrame pipeline is shallowly embedded: a table is a `List` of
rows, a nullable column is an `Option`, `decimal`/`double` arithmetic is
idealised as exact arithmetic over `ℚ` (or `ℝ` where the source takes square
roots and trigonometric functions), and the `raise` statements of the source
are embedded as `Except String`.

Two Spark/SQL semantic facts are used repeatedly and are recorded here once:
  * An aggregation without `GROUP BY` (e.g. `df.select(F.percentile_approx ...)`
    or `df.agg(F.sum ...)`) returns exactly one row even when `df` is empty;
    the aggregate values in that row are null.  Hence `.first()` on such a
    result is never `None` (it is a one-element `Row`, which is truthy in
    Python even when its single field is `None`).
  * Binary operations on null columns yield null, `x / 0` yields null, a null
    condition in `F.when(cond, a).otherwise(b)` selects `b`, and a null
    boolean filtered by `.filter` is dropped.
-/
import Mathlib

namespace FraudDetection

/-! ## DetectionConfig (detector.py, lines 78-87)

The floating-point thresholds and weights are embedded as rationals. -/

structure DetectionConfig where
  outlier_zscore_threshold : ℚ := 3
  outlier_iqr_multiplier : ℚ := 3/2
  duplicate_similarity_threshold : ℚ := 9/10
  duplicate_time_window_days : ℤ := 30
  max_provider_patient_distance_miles : ℚ := 500
  max_daily_procedures_per_provider : ℕ := 50
  max_claims_per_patient_per_day : ℕ := 5
  weight_rule_violation : ℚ := 3/10
  weight_statistical_anomaly : ℚ := 1/4
  weight_duplicate : ℚ := 9/20

def defaultConfig : DetectionConfig := {}

/-! ## Composite fraud score (detector.py, `_calculate_fraud_score`, lines 270-334)

In the `detect` pipeline every one of the six rule columns and three
statistical columns has been appended by an earlier stage, so the
`if col in claims.columns` filters keep all of them.  A row reaching
`_calculate_fraud_score` therefore carries nine boolean flags plus
`is_duplicate`; the score depends on nothing else. -/

structure FlagRow where
  daily_procedure_limit_exceeded : Bool
  patient_frequency_exceeded : Bool
  weekend_billing_flag : Bool
  round_amount_flag : Bool
  distance_exceeded : Bool
  state_mismatch : Bool
  charge_zscore_outlier : Bool
  charge_iqr_outlier : Bool
  benfords_anomaly : Bool
  is_duplicate : Bool

/-- The `rule_violations` array: one named entry per true rule flag
(the `F.when(col, name).otherwise(None)` array with nulls filtered out). -/
def ruleViolations (r : FlagRow) : List String :=
  [("daily_procedure_limit_exceeded", r.daily_procedure_limit_exceeded),
   ("patient_frequency_exceeded", r.patient_frequency_exceeded),
   ("weekend_billing_flag", r.weekend_billing_flag),
   ("round_amount_flag", r.round_amount_flag),
   ("distance_exceeded", r.distance_exceeded),
   ("state_mismatch", r.state_mismatch)].filterMap
    (fun p => if p.2 then some p.1 else none)

/-- The `statistical_flags` array, built the same way from the three
statistical columns. -/
def statisticalFlags (r : FlagRow) : List String :=
  [("charge_zscore_outlier", r.charge_zscore_outlier),
   ("charge_iqr_outlier", r.charge_iqr_outlier),
   ("benfords_anomaly", r.benfords_anomaly)].filterMap
    (fun p => if p.2 then some p.1 else none)

/-- Embeds `rule_score = size(rule_violations) / len(rule_columns)` with 6 rule columns. -/
def ruleScore (r : FlagRow) : ℚ := (ruleViolations r).length / 6

/-- Embeds `stat_score = size(statistical_flags) / len(stat_columns)` with 3 stat columns. -/
def statScore (r : FlagRow) : ℚ := (statisticalFlags r).length / 3

/-- Embeds `duplicate_score = 1.0 if is_duplicate else 0.0`. -/
def duplicateScore (r : FlagRow) : ℚ := if r.is_duplicate then 1 else 0

/-- Embeds `fraud_score = rule_score*w_rule + stat_score*w_stat + duplicate_score*w_dup`. -/
def fraudScore (cfg : DetectionConfig) (r : FlagRow) : ℚ :=
  ruleScore r * cfg.weight_rule_violation
    + statScore r * cfg.weight_statistical_anomaly
    + duplicateScore r * cfg.weight_duplicate

theorem ruleViolations_length_le (r : FlagRow) : (ruleViolations r).length ≤ 6 := by
  have h := List.length_filterMap_le
    (fun (p : String × Bool) => if p.2 then some p.1 else none)
    [("daily_procedure_limit_exceeded", r.daily_procedure_limit_exceeded),
     ("patient_frequency_exceeded", r.patient_frequency_exceeded),
     ("weekend_billing_flag", r.weekend_billing_flag),
     ("round_amount_flag", r.round_amount_flag),
     ("distance_exceeded", r.distance_exceeded),
     ("state_mismatch", r.state_mismatch)]
  simpa [ruleViolations] using h

theorem statisticalFlags_length_le (r : FlagRow) : (statisticalFlags r).length ≤ 3 := by
  have h := List.length_filterMap_le
    (fun (p : String × Bool) => if p.2 then some p.1 else none)
    [("charge_zscore_outlier", r.charge_zscore_outlier),
     ("charge_iqr_outlier", r.charge_iqr_outlier),
     ("benfords_anomaly", r.benfords_anomaly)]
  simpa [statisticalFlags] using h

/-- C1. With the default weights (0.3, 0.25, 0.45), every row's composite
fraud score `rule_score*0.3 + stat_score*0.25 + duplicate_score*0.45` lies in
[0, 1]: each component score is in [0, 1] and the weights sum to 1. -/
theorem fraudScore_bounds (r : FlagRow) :
    0 ≤ fraudScore defaultConfig r ∧ fraudScore defaultConfig r ≤ 1 := by
  have hr : (ruleViolations r).length ≤ 6 := ruleViolations_length_le r
  have hs : (statisticalFlags r).length ≤ 3 := statisticalFlags_length_le r
  have hrq : ((ruleViolations r).length : ℚ) ≤ 6 := by exact_mod_cast hr
  have hsq : ((statisticalFlags r).length : ℚ) ≤ 3 := by exact_mod_cast hs
  have hr0 : (0 : ℚ) ≤ ((ruleViolations r).length : ℚ) := by positivity
  have hs0 : (0 : ℚ) ≤ ((statisticalFlags r).length : ℚ) := by positivity
  constructor
  · unfold fraudScore ruleScore statScore duplicateScore defaultConfig
    rcases r.is_duplicate with _ | _ <;> simp <;> positivity
  · unfold fraudScore ruleScore statScore duplicateScore defaultConfig
    rcases r.is_duplicate with _ | _ <;> simp <;> nlinarith [hrq, hsq, hr0, hs0]

/-! ## Z-score outliers (outliers.py, `detect_zscore_outliers`, lines 109-134)

`Window.partitionBy` splits the table into groups (the whole table when no
`group_by` is given); the mean and standard deviation a row sees are those of
its own partition.  The embedding works at partition granularity: `xs` is the
list of the analysed column's values in the row's partition, `x` the row's
own value.  `F.stddev` is the sample standard deviation `stddev_samp`, which
is null on a single value; reals are used because of the square root. -/

/-- Embeds `F.mean(column).over(window)`. -/
noncomputable def listMean (xs : List ℝ) : ℝ := xs.sum / xs.length

/-- Embeds `F.stddev(column).over(window)`: sample standard deviation,
null (`none`) when the partition has at most one row. -/
noncomputable def sampleStddev (xs : List ℝ) : Option ℝ :=
  if xs.length ≤ 1 then none
  else some (Real.sqrt ((xs.map (fun x => (x - listMean xs) ^ 2)).sum / (xs.length - 1)))

/-- The `_zscore` column:
`F.when(stddev > 0, (x - mean) / stddev).otherwise(0.0)`.
A null standard deviation makes the condition null, which selects the
`otherwise` branch. -/
noncomputable def zscoreVal (xs : List ℝ) (x : ℝ) : ℝ :=
  match sampleStddev xs with
  | none => 0
  | some s => if s > 0 then (x - listMean xs) / s else 0

/-- The output flag column: `abs(_zscore) > threshold`. -/
def zscoreFlag (threshold : ℝ) (xs : List ℝ) (x : ℝ) : Prop :=
  |zscoreVal xs x| > threshold

theorem sampleStddev_of_constant (xs : List ℝ) (c : ℝ)
    (hc : ∀ y ∈ xs, y = c) (hlen : 2 ≤ xs.length) :
    sampleStddev xs = some 0 := by
  have hrep : xs = List.replicate xs.length c := List.eq_replicate_of_mem hc
  have hsum : xs.sum = xs.length * c := by
    rw [hrep]
    simp [List.sum_replicate, nsmul_eq_mul]
  have hmean : listMean xs = c := by
    unfold listMean
    rw [hsum]
    have hlen0 : (xs.length : ℝ) ≠ 0 := by
      have : 0 < xs.length := by omega
      positivity
    field_simp
  have hdev : (xs.map (fun x => (x - listMean xs) ^ 2)).sum = 0 := by
    have hzero : ∀ z ∈ xs.map (fun x => (x - listMean xs) ^ 2), z = 0 := by
      intro z hz
      rcases List.mem_map.mp hz with ⟨y, hy, rfl⟩
      rw [hmean, hc y hy]
      ring
    have hrep2 := List.eq_replicate_of_mem hzero
    rw [hrep2]
    simp [List.sum_replicate]
  unfold sampleStddev
  rw [if_neg (by omega), hdev]
  simp

/-- C2. For every partition `xs` and value `x` of a row in it, with a
nonnegative configured threshold: when σ = `sampleStddev xs` is positive the
flag is true iff `|(x-μ)/σ| > threshold`; when σ is zero or null (all values
identical, or a single row) the Z-score falls back to 0 and the row is not
flagged — in particular a value lying exactly `threshold·σ` from the mean is
not flagged (strict `>`), and no row of a partition of at least two
all-identical values is ever flagged. -/
theorem zscore_iff_and_boundary (threshold : ℝ) (xs : List ℝ) (x : ℝ)
    (hthr : 0 ≤ threshold) :
    (∀ s, sampleStddev xs = some s → 0 < s →
      (zscoreFlag threshold xs x ↔ |(x - listMean xs) / s| > threshold))
    ∧ (∀ s, sampleStddev xs = some s → ¬ 0 < s → ¬ zscoreFlag threshold xs x)
    ∧ (sampleStddev xs = none → ¬ zscoreFlag threshold xs x)
    ∧ (∀ s, sampleStddev xs = some s → 0 < s →
        x = listMean xs + threshold * s → ¬ zscoreFlag threshold xs x)
    ∧ ((∃ c, ∀ y ∈ xs, y = c) → ¬ zscoreFlag threshold xs x) := by
  have hval : ∀ s, sampleStddev xs = some s → 0 < s →
      zscoreVal xs x = (x - listMean xs) / s := by
    intro s hs hpos
    unfold zscoreVal
    rw [hs]
    simp only [if_pos hpos]
  have hval0 : ∀ s, sampleStddev xs = some s → ¬ 0 < s → zscoreVal xs x = 0 := by
    intro s hs hpos
    unfold zscoreVal
    rw [hs]
    simp only [if_neg hpos]
  have hvalnone : sampleStddev xs = none → zscoreVal xs x = 0 := by
    intro hs
    unfold zscoreVal
    rw [hs]
  refine ⟨?_, ?_, ?_, ?_, ?_⟩
  · intro s hs hpos
    unfold zscoreFlag
    rw [hval s hs hpos]
  · intro s hs hpos
    unfold zscoreFlag
    rw [hval0 s hs hpos]
    simpa using not_lt.mpr hthr
  · intro hs
    unfold zscoreFlag
    rw [hvalnone hs]
    simpa using not_lt.mpr hthr
  · intro s hs hpos hx
    unfold zscoreFlag
    rw [hval s hs hpos, hx]
    have heq : (listMean xs + threshold * s - listMean xs) / s = threshold := by
      field_simp
    rw [heq, abs_of_nonneg hthr]
    exact lt_irrefl threshold
  · rintro ⟨c, hc⟩
    rcases hstd : sampleStddev xs with _ | s
    · unfold zscoreFlag
      rw [hvalnone hstd]
      simpa using not_lt.mpr hthr
    · have h2 : 2 ≤ xs.length := by
        unfold sampleStddev at hstd
        by_cases h : xs.length ≤ 1
        · rw [if_pos h] at hstd; exact absurd hstd (by simp)
        · omega
      have hzero := sampleStddev_of_constant xs c hc h2
      rw [hstd] at hzero
      injection hzero with h0
      unfold zscoreFlag
      rw [hval0 s hstd (by rw [h0]; exact lt_irrefl 0)]
      simpa using not_lt.mpr hthr

/-- Witness for C2 on the partition `[-1/3 ×9, 0, 3]` (mean 0, sample
standard deviation 1): the value `3 = μ + 3σ` sits exactly at the default
threshold 3 and is not flagged. -/
theorem zscore_iff_and_boundary_witness :
    ¬ zscoreFlag 3 [-1/3, -1/3, -1/3, -1/3, -1/3, -1/3, -1/3, -1/3, -1/3, 0, 3] 3 := by
  have hmean : listMean [-1/3, -1/3, -1/3, -1/3, -1/3, -1/3, -1/3, -1/3, -1/3, 0, 3] = 0 := by
    unfold listMean
    norm_num
  have hstd : sampleStddev [-1/3, -1/3, -1/3, -1/3, -1/3, -1/3, -1/3, -1/3, -1/3, 0, 3]
      = some 1 := by
    unfold sampleStddev
    rw [if_neg (by norm_num)]
    have hsum : ((([-1/3, -1/3, -1/3, -1/3, -1/3, -1/3, -1/3, -1/3, -1/3, 0, 3] : List ℝ).map
        (fun x => (x - listMean [-1/3, -1/3, -1/3, -1/3, -1/3, -1/3, -1/3, -1/3, -1/3, 0, 3]) ^ 2)).sum
        / ((([-1/3, -1/3, -1/3, -1/3, -1/3, -1/3, -1/3, -1/3, -1/3, 0, 3] : List ℝ).length : ℝ) - 1)) = 1 := by
      simp only [hmean, List.map_cons, List.map_nil, List.sum_cons, List.sum_nil,
        List.length_cons, List.length_nil]
      norm_num
    rw [hsum, Real.sqrt_one]
  exact
    (zscore_iff_and_boundary 3
        [-1/3, -1/3, -1/3, -1/3, -1/3, -1/3, -1/3, -1/3, -1/3, 0, 3] 3
        (by norm_num)).2.2.2.1 1 hstd (by norm_num) (by rw [hmean]; norm_num)

/-- C10. A row whose partition contains exactly one row is never flagged:
`stddev_samp` of a single value is null, the `F.when` condition is null, and
the Z-score falls back to 0 exactly as in the zero-variance case. -/
theorem zscore_singleton_not_flagged (threshold : ℝ) (x : ℝ) (hthr : 0 ≤ threshold) :
    zscoreVal [x] x = 0 ∧ ¬ zscoreFlag threshold [x] x := by
  have hstd : sampleStddev [x] = none := by
    unfold sampleStddev
    rw [if_pos (by simp)]
  constructor
  · unfold zscoreVal
    rw [hstd]
  · unfold zscoreFlag zscoreVal
    rw [hstd]
    simpa using not_lt.mpr hthr

/-- Witness for C10 at the default threshold 3 and value 42. -/
theorem zscore_singleton_not_flagged_witness :
    zscoreVal [42] 42 = 0 ∧ ¬ zscoreFlag 3 [42] 42 :=
  zscore_singleton_not_flagged 3 42 (by norm_num)

/-! ## IQR outliers, ungrouped branch (outliers.py, `detect_iqr_outliers`, lines 179-211)

Only the ungrouped branch (lines 187-198) carries the raise statement the
claims mention.  `percentile_approx` is a bounded-error quantile sketch; on
the exact small inputs used here it returns a data element at the quantile
rank, and the only property the claims below rely on is that it is non-null
exactly when the input is nonempty. -/

/-- Embeds `F.percentile_approx(column, p)`: nearest-rank percentile of the data,
null on an empty input. -/
def percentileApprox (xs : List ℚ) (p : ℚ) : Option ℚ :=
  match xs with
  | [] => none
  | x :: rest =>
    some ((List.insertionSort (· ≤ ·) (x :: rest)).getD
      ((⌈p * (x :: rest).length⌉).toNat - 1) x)

/-- Embeds `detect_iqr_outliers` with `group_by=None`.  The
`df.select(percentile_approx .., percentile_approx ..).first()` call is a
global aggregate: it produces exactly one row even on empty input, so the
`if not select_first: raise ValueError(...)` guard fires only if `first()`
were `None`, which never happens.  A null quartile yields null bounds and a
null flag. -/
def detect_iqr_outliers (multiplier : ℚ) (t : List ℚ) :
    Except String (List (ℚ × Option Bool)) :=
  let select_first : Option (Option ℚ × Option ℚ) :=
    some (percentileApprox t (1/4), percentileApprox t (3/4))
  match select_first with
  | none => .error "No data to calculate percentiles"
  | some (q1?, q3?) =>
    .ok (t.map fun x =>
      match q1?, q3? with
      | some q1, some q3 =>
        let iqr := q3 - q1
        (x, some (decide (x < q1 - multiplier * iqr) || decide (x > q3 + multiplier * iqr)))
      | _, _ => (x, none))

/-! ## Benford's Law analyzer (benfords.py)

A value is carried as the string cast of its absolute value (the source
computes `substring(cast(abs(value) as string), 1, 1)`). -/

/-- The `_first_digit` column (benfords.py lines 134-141): first character of
the value string cast to int (null for a non-digit), kept only when in 1..9. -/
def firstDigitCol (s : String) : Option ℕ :=
  match s.toList.head? with
  | none => none
  | some c =>
    if '0' ≤ c ∧ c ≤ '9' then
      if 0 < c.toNat - '0'.toNat ∧ c.toNat - '0'.toNat ≤ 9 then
        some (c.toNat - '0'.toNat)
      else none
    else none

/-- The `BENFORDS_EXPECTED` table (benfords.py lines 77-87), applied to
digits 1..9 only (the join with `expected_df` keeps exactly those). -/
def benfordsExpected (d : ℕ) : ℚ :=
  if d = 1 then 301/1000 else if d = 2 then 176/1000 else if d = 3 then 125/1000
  else if d = 4 then 97/1000 else if d = 5 then 79/1000 else if d = 6 then 67/1000
  else if d = 7 then 58/1000 else if d = 8 then 51/1000 else 46/1000

def digitList : List ℕ := [1, 2, 3, 4, 5, 6, 7, 8, 9]

/-- Embeds `_analyze_global` composed with the digit extraction (benfords.py
lines 134-151 and 221-275).  `digit_counts.agg(F.sum("count")).first()` is a
global aggregate returning exactly one row (`total_first`), whose field is
null when no row has a valid digit; the one-element `Row` is truthy in
Python, so the `if not total_first: raise` guard fires only when `first()`
is `None`, which never happens.  With a null total every observed frequency
is null and the over-representation filter keeps nothing.  A digit is
over-represented when it occurs, its observed frequency exceeds the expected
one, and the absolute deviation exceeds the threshold; a row is flagged when
its digit is in that set (`isin` on a null digit is null; with an empty set
the source uses `F.lit(False)` for every row). -/
def analyze_global (vals : List String) (threshold : ℚ) :
    Except String (List (String × Option Bool)) :=
  let digits := vals.filterMap firstDigitCol
  let total_first : Option (Option ℕ) :=
    some (if digits.isEmpty then none else some digits.length)
  match total_first with
  | none => .error "No valid data to analyze"
  | some totalOpt =>
    let flagged : List ℕ :=
      match totalOpt with
      | none => []
      | some total =>
        digitList.filter fun d =>
          decide (0 < digits.count d)
          && decide ((digits.count d : ℚ) / total > benfordsExpected d)
          && decide (|(digits.count d : ℚ) / total - benfordsExpected d| > threshold)
    .ok (vals.map fun v =>
      match flagged, firstDigitCol v with
      | [], _ => (v, some false)
      | _ :: _, some d => (v, some (flagged.contains d))
      | _ :: _, none => (v, none))

/-- Per-group count of rows carrying a given valid first digit
(`digit_counts` in `_analyze_by_group`). -/
def groupDigitCount (rows : List (String × String)) (g : String) (d : ℕ) : ℕ :=
  rows.countP fun r => decide (r.1 = g) && decide (firstDigitCol r.2 = some d)

/-- Per-group total of valid-digit rows (`totals` in `_analyze_by_group`). -/
def groupValidCount (rows : List (String × String)) (g : String) : ℕ :=
  rows.countP fun r => decide (r.1 = g) && (firstDigitCol r.2).isSome

/-- Embeds `_deviation` for one digit of one group: `abs(observed - expected)`. -/
def groupDeviation (rows : List (String × String)) (g : String) (d : ℕ) : ℚ :=
  |(groupDigitCount rows g d : ℚ) / groupValidCount rows g - benfordsExpected d|

/-- Embeds `_max_benford_deviation` of a group: the maximum absolute deviation over
the digits present in the group; null when the group has no valid-digit row
(such a group has no row in `group_deviations`). -/
def groupMaxDeviation (rows : List (String × String)) (g : String) : Option ℚ :=
  ((digitList.filter fun d => decide (0 < groupDigitCount rows g d)).map
    (groupDeviation rows g)).max?

/-- Embeds `_analyze_by_group` composed with the digit extraction (benfords.py
lines 134-151 and 153-219): a row is flagged iff its group's maximum
absolute deviation exceeds the threshold
(`coalesce(benfords_anomaly_group, false)` after the left join). -/
def analyze_by_group (rows : List (String × String)) (threshold : ℚ) :
    List ((String × String) × Bool) :=
  rows.map fun r =>
    (r, match groupMaxDeviation rows r.1 with
        | none => false
        | some m => decide (m > threshold))

/-- Spark `F.round`: HALF_UP rounding (half away from zero) to `n` decimals. -/
def roundHalfUp (n : ℕ) (x : ℚ) : ℚ :=
  if 0 ≤ x then (⌊x * 10 ^ n + 1/2⌋ : ℚ) / 10 ^ n
  else -((⌊-x * 10 ^ n + 1/2⌋ : ℚ) / 10 ^ n)

/-- Embeds `get_distribution_report` without `group_by` (benfords.py lines 277-359):
one output row per digit present, with count, total, rounded observed and
expected frequencies, deviation and deviation percentage.  The
`digit_counts.agg(F.sum("count")).first()` guard is the same dead guard as
in `_analyze_global`. -/
def get_distribution_report_global (vals : List String) :
    Except String (List (ℕ × ℕ × ℕ × ℚ × ℚ × ℚ × ℚ)) :=
  let digits := vals.filterMap firstDigitCol
  let total_first : Option (Option ℕ) :=
    some (if digits.isEmpty then none else some digits.length)
  match total_first with
  | none => .error "No valid data to analyze"
  | some totalOpt =>
    match totalOpt with
    | none => .ok []
    | some total =>
      .ok ((digitList.filter fun d => decide (0 < digits.count d)).map fun d =>
        let observed := roundHalfUp 4 ((digits.count d : ℚ) / total)
        let expected := roundHalfUp 4 (benfordsExpected d)
        let deviation := roundHalfUp 4 (observed - expected)
        (d, digits.count d, total, observed, expected, deviation,
          roundHalfUp 2 (deviation / expected * 100)))

/-- C4. Contrary to the spec, empty input is not a hard error: the
`.first()` of a global aggregate always returns a (possibly all-null) row, so
the `raise ValueError` guards in the ungrouped IQR path and in the Benford
analyzer are unreachable.  An empty table, and a table whose only value has
no valid leading digit, all yield successful results; in fact both
entry points return `.ok` on every input. -/
theorem percentile_benford_empty_no_error :
    detect_iqr_outliers (3/2) [] = .ok []
    ∧ analyze_global [] (15/100) = .ok []
    ∧ analyze_global ["0.00"] (15/100) = .ok [("0.00", some false)]
    ∧ get_distribution_report_global [] = .ok []
    ∧ (∀ m t, ∃ out, detect_iqr_outliers m t = .ok out)
    ∧ (∀ vals threshold, ∃ out, analyze_global vals threshold = .ok out) := by
  refine ⟨rfl, rfl, rfl, rfl, fun m t => ⟨_, rfl⟩, fun vals threshold => ⟨_, rfl⟩⟩

/-- C5 as the spec states it, instantiated to grouped analysis (the claim
asserts it for both global and grouped modes): a row can be flagged only
when some digit 1..9 of its group is over-represented — observed frequency
minus expected frequency above the threshold. -/
def benfordOverRepOnlyGrouped (rows : List (String × String)) (threshold : ℚ) : Prop :=
  ∀ r, (r, true) ∈ analyze_by_group rows threshold →
    ∃ d ∈ digitList, 0 < groupDigitCount rows r.1 d ∧
      (groupDigitCount rows r.1 d : ℚ) / groupValidCount rows r.1
        - benfordsExpected d > threshold

/-- Twenty claims of one provider group "G": leading digits 1 ×3, 2 ×6, 3 ×5,
4 ×4, 5 ×2.  Digit 1 is under-represented by 0.151 > 0.15 while no digit is
over-represented by more than 0.125. -/
def rows20 : List (String × String) :=
  [("G", "10.00"), ("G", "10.00"), ("G", "10.00"),
   ("G", "20.00"), ("G", "20.00"), ("G", "20.00"), ("G", "20.00"), ("G", "20.00"), ("G", "20.00"),
   ("G", "30.00"), ("G", "30.00"), ("G", "30.00"), ("G", "30.00"), ("G", "30.00"),
   ("G", "40.00"), ("G", "40.00"), ("G", "40.00"), ("G", "40.00"),
   ("G", "50.00"), ("G", "50.00")]

theorem rows20_maxDeviation : groupMaxDeviation rows20 "G" = some (151/1000) := by
  have hv : groupValidCount rows20 "G" = 20 := by decide
  have hc1 : groupDigitCount rows20 "G" 1 = 3 := by decide
  have hc2 : groupDigitCount rows20 "G" 2 = 6 := by decide
  have hc3 : groupDigitCount rows20 "G" 3 = 5 := by decide
  have hc4 : groupDigitCount rows20 "G" 4 = 4 := by decide
  have hc5 : groupDigitCount rows20 "G" 5 = 2 := by decide
  have hd1 : groupDeviation rows20 "G" 1 = 151/1000 := by
    unfold groupDeviation
    rw [hc1, hv, abs_of_nonpos (by norm_num [benfordsExpected])]
    norm_num [benfordsExpected]
  have hd2 : groupDeviation rows20 "G" 2 = 124/1000 := by
    unfold groupDeviation
    rw [hc2, hv, abs_of_nonneg (by norm_num [benfordsExpected])]
    norm_num [benfordsExpected]
  have hd3 : groupDeviation rows20 "G" 3 = 125/1000 := by
    unfold groupDeviation
    rw [hc3, hv, abs_of_nonneg (by norm_num [benfordsExpected])]
    norm_num [benfordsExpected]
  have hd4 : groupDeviation rows20 "G" 4 = 103/1000 := by
    unfold groupDeviation
    rw [hc4, hv, abs_of_nonneg (by norm_num [benfordsExpected])]
    norm_num [benfordsExpected]
  have hd5 : groupDeviation rows20 "G" 5 = 21/1000 := by
    unfold groupDeviation
    rw [hc5, hv, abs_of_nonneg (by norm_num [benfordsExpected])]
    norm_num [benfordsExpected]
  unfold groupMaxDeviation
  rw [show digitList.filter (fun d => decide (0 < groupDigitCount rows20 "G" d))
      = [1, 2, 3, 4, 5] by decide]
  simp only [List.map_cons, List.map_nil, hd1, hd2, hd3, hd4, hd5]
  rw [show List.max? [(151:ℚ)/1000, 124/1000, 125/1000, 103/1000, 21/1000]
      = some (151/1000) by
    simp only [List.max?, List.foldl]
    rw [max_eq_left (by norm_num), max_eq_left (by norm_num),
      max_eq_left (by norm_num), max_eq_left (by norm_num)]]

/-- C5, counterexample. In grouped mode, under-representation does cause
flagging: in `rows20` the only deviation above the threshold 0.15 is digit
1's under-representation (|0.15 − 0.301| = 0.151), every over-representation
is at most 0.125, yet every row of the group is flagged. -/
theorem benford_under_representation_flags :
    ¬ benfordOverRepOnlyGrouped rows20 (15/100) := by
  intro h
  have hflag : (((("G", "10.00") : String × String), true) ∈
      analyze_by_group rows20 (15/100)) := by
    unfold analyze_by_group
    refine List.mem_map.mpr ⟨("G", "10.00"), by decide, ?_⟩
    rw [rows20_maxDeviation]
    simp only [decide_eq_true (show (151:ℚ)/1000 > 15/100 by norm_num)]
  rcases h ("G", "10.00") hflag with ⟨d, hd, hpos, hover⟩
  have hv : groupValidCount rows20 "G" = 20 := by decide
  fin_cases hd
  · rw [show groupDigitCount rows20 "G" 1 = 3 by decide, hv] at hover
    norm_num [benfordsExpected] at hover
  · rw [show groupDigitCount rows20 "G" 2 = 6 by decide, hv] at hover
    norm_num [benfordsExpected] at hover
  · rw [show groupDigitCount rows20 "G" 3 = 5 by decide, hv] at hover
    norm_num [benfordsExpected] at hover
  · rw [show groupDigitCount rows20 "G" 4 = 4 by decide, hv] at hover
    norm_num [benfordsExpected] at hover
  · rw [show groupDigitCount rows20 "G" 5 = 2 by decide, hv] at hover
    norm_num [benfordsExpected] at hover
  · exact absurd (show groupDigitCount rows20 "G" 6 = 0 by decide ▸ hpos) (by
      rw [show groupDigitCount rows20 "G" 6 = 0 by decide] at hpos
      exact absurd hpos (by norm_num))
  · rw [show groupDigitCount rows20 "G" 7 = 0 by decide] at hpos
    exact absurd hpos (by norm_num)
  · rw [show groupDigitCount rows20 "G" 8 = 0 by decide] at hpos
    exact absurd hpos (by norm_num)
  · rw [show groupDigitCount rows20 "G" 9 = 0 by decide] at hpos
    exact absurd hpos (by norm_num)

/-- C5, amended. Global analysis flags a row only when its leading digit
is over-represented (observed > expected and deviation above the threshold);
grouped analysis instead flags a row iff the maximum absolute per-digit
deviation of its group exceeds the threshold, so there under-representation
can also trigger the flag. -/
theorem benford_flag_semantics :
    (∀ vals threshold out v, analyze_global vals threshold = .ok out →
      (v, some true) ∈ out →
      ∃ d, firstDigitCol v = some d
        ∧ 0 < (vals.filterMap firstDigitCol).count d
        ∧ ((vals.filterMap firstDigitCol).count d : ℚ)
            / (vals.filterMap firstDigitCol).length > benfordsExpected d
        ∧ ((vals.filterMap firstDigitCol).count d : ℚ)
            / (vals.filterMap firstDigitCol).length - benfordsExpected d > threshold)
    ∧ (∀ rows threshold r, ((r, true) ∈ analyze_by_group rows threshold ↔
        r ∈ rows ∧ ∃ m, groupMaxDeviation rows r.1 = some m ∧ m > threshold)) := by
  constructor
  · intro vals threshold out v h hmem
    unfold analyze_global at h
    replace h := Except.ok.inj h
    rw [← h] at hmem
    rcases List.mem_map.mp hmem with ⟨v', hv', hfv⟩
    by_cases hemp : (vals.filterMap firstDigitCol).isEmpty
    · rw [if_pos hemp] at hfv
      simp only at hfv
      exact absurd (congrArg Prod.snd hfv) (by simp)
    · rw [if_neg hemp] at hfv
      simp only at hfv
      rcases hflag : (digitList.filter fun d =>
          decide (0 < (vals.filterMap firstDigitCol).count d)
          && decide (((vals.filterMap firstDigitCol).count d : ℚ)
              / (vals.filterMap firstDigitCol).length > benfordsExpected d)
          && decide (|((vals.filterMap firstDigitCol).count d : ℚ)
              / (vals.filterMap firstDigitCol).length - benfordsExpected d| > threshold))
        with _ | ⟨d0, rest⟩
      · rw [hflag] at hfv
        exact absurd (congrArg Prod.snd hfv) (by simp)
      · rw [hflag] at hfv
        rcases hfd : firstDigitCol v' with _ | d
        · rw [hfd] at hfv
          exact absurd (congrArg Prod.snd hfv) (by simp)
        · rw [hfd] at hfv
          have hv'' : v' = v := congrArg Prod.fst hfv
          have hcont : (d0 :: rest).contains d = true := by
            have := congrArg Prod.snd hfv
            simpa using this
          have hdmem : d ∈ d0 :: rest := List.mem_of_elem_eq_true hcont
          rw [← hflag] at hdmem
          rcases List.mem_filter.mp hdmem with ⟨-, hpred⟩
          simp only [Bool.and_eq_true, decide_eq_true_eq] at hpred
          refine ⟨d, hv'' ▸ hfd, hpred.1.1, hpred.1.2, ?_⟩
          have habs := hpred.2
          rwa [abs_of_pos (sub_pos.mpr hpred.1.2)] at habs
  · intro rows threshold r
    unfold analyze_by_group
    constructor
    · intro hmem
      rcases List.mem_map.mp hmem with ⟨r', hr', hfr⟩
      have hrr : r' = r := congrArg Prod.fst hfr
      subst hrr
      refine ⟨hr', ?_⟩
      rcases hmax : groupMaxDeviation rows r'.1 with _ | m
      · rw [hmax] at hfr
        exact absurd (congrArg Prod.snd hfr) (by simp)
      · rw [hmax] at hfr
        have := congrArg Prod.snd hfr
        simp only [decide_eq_true_eq] at this
        exact ⟨m, rfl, this⟩
    · rintro ⟨hr, m, hmax, hm⟩
      refine List.mem_map.mpr ⟨r, hr, ?_⟩
      rw [hmax]
      simp only [decide_eq_true hm]

theorem analyze_global_eval_50 :
    analyze_global ["50.00"] (15/100) = .ok [("50.00", some true)] := by
  have hd : (["50.00"] : List String).filterMap firstDigitCol = [5] := by decide
  unfold analyze_global
  rw [hd]
  simp only [List.isEmpty_cons, List.length_cons, List.length_nil, Bool.false_eq_true,
    if_false, digitList, List.filter, List.count_cons, List.count_nil, Nat.cast_ofNat,
    Nat.cast_one, Nat.cast_zero]
  norm_num [benfordsExpected]
  rw [decide_eq_true (show (3:ℚ)/20 < |921/1000| by
    rw [abs_of_nonneg (by norm_num : (0:ℚ) ≤ 921/1000)]; norm_num)]
  rfl

/-- Witness for the amended C5 at a one-value table whose digit 5 is flagged
globally: the theorem yields an over-represented digit. -/
theorem benford_flag_semantics_witness :
    ∃ d, firstDigitCol "50.00" = some d
      ∧ 0 < ((["50.00"] : List String).filterMap firstDigitCol).count d
      ∧ (((["50.00"] : List String).filterMap firstDigitCol).count d : ℚ)
          / ((["50.00"] : List String).filterMap firstDigitCol).length > benfordsExpected d
      ∧ (((["50.00"] : List String).filterMap firstDigitCol).count d : ℚ)
          / ((["50.00"] : List String).filterMap firstDigitCol).length - benfordsExpected d
          > 15/100 :=
  benford_flag_semantics.1 ["50.00"] (15/100) [("50.00", some true)] "50.00"
    analyze_global_eval_50 (by simp)

/-! ## Geographic rules (geographic.py)

Which optional columns a table has is part of the table's schema, embedded
as a bag of booleans; the per-row coordinate values live in the rows. -/

structure GeoSchema where
  hasPatientLat : Bool
  hasPatientLon : Bool
  hasProviderLat : Bool
  hasProviderLon : Bool

/-- Embeds `all(col in claims.columns for col in [patient_lat, patient_lon,
provider_lat, provider_lon])` (geographic.py line 88 and lines 260-261). -/
def GeoSchema.hasCoordinates (s : GeoSchema) : Bool :=
  s.hasPatientLat && s.hasPatientLon && s.hasProviderLat && s.hasProviderLon

structure GeoRow where
  patient_lat : ℝ
  patient_lon : ℝ
  provider_lat : ℝ
  provider_lon : ℝ
  patient_state : Option String
  provider_state : Option String

/-- Embeds `_haversine_distance` (geographic.py lines 110-149), over ℝ. -/
noncomputable def haversine_distance (lat1 lon1 lat2 lon2 : ℝ) : ℝ :=
  let earth_radius_miles : ℝ := 3959
  let lat1_rad := lat1 * Real.pi / 180
  let lat2_rad := lat2 * Real.pi / 180
  let delta_lat := (lat2 - lat1) * Real.pi / 180
  let delta_lon := (lon2 - lon1) * Real.pi / 180
  let a := Real.sin (delta_lat / 2) ^ 2
    + Real.cos lat1_rad * Real.cos lat2_rad * Real.sin (delta_lon / 2) ^ 2
  let c := 2 * Real.arcsin (Real.sqrt a)
  earth_radius_miles * c

/-- The `distance_exceeded` column of `check_provider_patient_distance`
(geographic.py lines 61-108): when all four coordinate columns are present
the haversine distance is compared against the configured maximum; otherwise
the column is `F.lit(False)` — no error is raised, and the state columns are
never consulted (no fallback to the state-mismatch heuristic). -/
def distance_exceeded (schema : GeoSchema) (maxMiles : ℝ) (r : GeoRow) : Prop :=
  if schema.hasCoordinates then
    haversine_distance r.patient_lat r.patient_lon r.provider_lat r.provider_lon > maxMiles
  else False

/-- Embeds `check_provider_patient_distance` over a table. -/
def check_provider_patient_distance (schema : GeoSchema) (maxMiles : ℝ)
    (t : List GeoRow) : List (GeoRow × Prop) :=
  t.map fun r => (r, distance_exceeded schema maxMiles r)

/-- C9. A table lacking at least one of the four coordinate columns gets
`distance_exceeded = false` on every row — regardless of the rows' state
columns, so no state-level fallback happens — and no error is raised. -/
theorem missing_coordinates_distance_false (schema : GeoSchema) (maxMiles : ℝ)
    (t : List GeoRow)
    (h : schema.hasPatientLat = false ∨ schema.hasPatientLon = false
      ∨ schema.hasProviderLat = false ∨ schema.hasProviderLon = false) :
    ∀ p ∈ check_provider_patient_distance schema maxMiles t, ¬ p.2 := by
  have hco : schema.hasCoordinates = false := by
    unfold GeoSchema.hasCoordinates
    rcases h with h | h | h | h <;> rw [h] <;> simp
  intro p hp
  rcases List.mem_map.mp hp with ⟨r, -, rfl⟩
  unfold distance_exceeded
  rw [hco]
  simp

/-- Witness for C9: in a one-row table with coordinates present in the row
but the `provider_lon` column absent from the schema, the row's output flag
is false. -/
theorem missing_coordinates_distance_false_witness :
    ¬ ((⟨0, 0, 80, 80, some "NY", some "CA"⟩,
        distance_exceeded ⟨true, true, true, false⟩ 500
          ⟨0, 0, 80, 80, some "NY", some "CA"⟩) : GeoRow × Prop).2 :=
  missing_coordinates_distance_false ⟨true, true, true, false⟩ 500
    [⟨0, 0, 80, 80, some "NY", some "CA"⟩] (by right; right; right; rfl)
    (⟨0, 0, 80, 80, some "NY", some "CA"⟩,
      distance_exceeded ⟨true, true, true, false⟩ 500 ⟨0, 0, 80, 80, some "NY", some "CA"⟩)
    (by simp [check_provider_patient_distance])

/-! ## Impossible travel (geographic.py, `check_impossible_travel`, lines 229-282)

The provider coordinates are only collected into a list and counted, never
used in arithmetic, so they are embedded as rationals. -/

structure TravelRow where
  patient_id : String
  service_date : ℤ
  provider_lat : ℚ
  provider_lon : ℚ

/-- Embeds `provider_locations`: `F.collect_list(F.struct(provider_lat,
provider_lon))` over the `(patient_id, service_date)` window — the
coordinates of all rows of the group, duplicates included. -/
def provider_locations (t : List TravelRow) (r : TravelRow) : List (ℚ × ℚ) :=
  (t.filter fun s =>
      decide (s.patient_id = r.patient_id) && decide (s.service_date = r.service_date)).map
    fun s => (s.provider_lat, s.provider_lon)

/-- Embeds `check_impossible_travel`: with the four coordinate columns present,
`impossible_travel_flag = F.size(provider_locations) > 3`; otherwise the
flag is unconditionally false. -/
def check_impossible_travel (hasCoordinates : Bool) (t : List TravelRow) :
    List (TravelRow × Bool) :=
  if hasCoordinates then
    t.map fun r => (r, decide ((provider_locations t r).length > 3))
  else
    t.map fun r => (r, false)

/-- Four claims of one patient on one day at one and the same provider
location. -/
def travel4 : List TravelRow :=
  [⟨"P1", 0, 40, 70⟩, ⟨"P1", 0, 40, 70⟩, ⟨"P1", 0, 40, 70⟩, ⟨"P1", 0, 40, 70⟩]

/-- C6. `collect_list` keeps duplicates, so the flag compares the number
of claims in the `(patient, service_date)` group — not the number of
distinct provider locations — against 3: four same-day claims at a single
provider location are all flagged although only one distinct location was
visited. -/
theorem impossible_travel_counts_claims_not_locations :
    (∀ p ∈ check_impossible_travel true travel4, p.2 = true)
    ∧ (provider_locations travel4 ⟨"P1", 0, 40, 70⟩).dedup.length = 1 := by
  constructor
  · intro p hp
    unfold check_impossible_travel at hp
    rw [if_pos rfl] at hp
    rcases List.mem_map.mp hp with ⟨r, hr, rfl⟩
    have hr4 : r = ⟨"P1", 0, 40, 70⟩ := by
      simpa [travel4] using hr
    subst hr4
    rw [decide_eq_true]
    rw [show provider_locations travel4 ⟨"P1", 0, 40, 70⟩
        = [(40, 70), (40, 70), (40, 70), (40, 70)] by
      unfold provider_locations travel4
      simp]
    simp
  · rw [show provider_locations travel4 ⟨"P1", 0, 40, 70⟩
        = [(40, 70), (40, 70), (40, 70), (40, 70)] by
      unfold provider_locations travel4
      simp]
    norm_num [List.dedup_cons_of_mem, List.dedup_cons_of_not_mem]

/-! ## Exact duplicates (duplicates.py, `_detect_exact_duplicates`, lines 100-162)

The key fields enter the composite key as their string casts
(`F.col(c).cast("string")`); the cast is injective on dates and decimals, so
two rows share the five typed key fields iff they share the five cast
strings, which the embedded row carries directly.  `claim_id` is the unique
row key per the input contract; with distinct claim ids,
`row_number` over `(partitionBy duplicate_key, orderBy claim_id)` exceeds 1
iff some row of the partition has a smaller claim id, and
`F.first("claim_id")` over that window is the partition's smallest claim id
(the default window frame runs from the partition start to the current row,
whose first element is the overall minimum because rows are ordered by
claim id). -/

structure ERow where
  claim_id : String
  patientS : String
  providerS : String
  procedureS : String
  dateS : String
  chargeS : String

/-- The separator of `F.concat_ws("|", ...)`. -/
def sep : Char := '|'

/-- The `duplicate_key` column: the five cast key fields joined by `"|"`,
as a flat character list (string concatenation flattens the tuple). -/
def duplicate_key (r : ERow) : List Char :=
  r.patientS.toList ++ sep :: (r.providerS.toList ++ sep :: (r.procedureS.toList
    ++ sep :: (r.dateS.toList ++ sep :: r.chargeS.toList)))

/-- Equality of the five (cast) key fields — the composite key as a tuple,
which is what the claim quantifies over. -/
def sameKeyFields (s r : ERow) : Prop :=
  s.patientS = r.patientS ∧ s.providerS = r.providerS ∧ s.procedureS = r.procedureS
    ∧ s.dateS = r.dateS ∧ s.chargeS = r.chargeS

instance (s r : ERow) : Decidable (sameKeyFields s r) := by
  unfold sameKeyFields; infer_instance

/-- Embeds `is_exact_duplicate = duplicate_rank > 1`: some row of the same
`duplicate_key` partition precedes this row in claim-id order. -/
def is_exact_duplicate (t : List ERow) (r : ERow) : Bool :=
  t.any fun s => decide (duplicate_key s = duplicate_key r)
    && decide (s.claim_id < r.claim_id)

/-- Embeds `first_claim_in_group`: the smallest claim id of the row's
`duplicate_key` partition. -/
def first_claim_in_group (t : List ERow) (r : ERow) : Option String :=
  ((t.filter fun s => decide (duplicate_key s = duplicate_key r)).map
    (fun s => s.claim_id)).min?

/-- Embeds `exact_duplicate_of = F.when(is_exact_duplicate,
first_claim_in_group).otherwise(None)`. -/
def exact_duplicate_of (t : List ERow) (r : ERow) : Option String :=
  if is_exact_duplicate t r then first_claim_in_group t r else none

/-- No key field of the row contains the `"|"` separator. -/
def pipeFree (r : ERow) : Prop :=
  sep ∉ r.patientS.toList ∧ sep ∉ r.providerS.toList ∧ sep ∉ r.procedureS.toList
    ∧ sep ∉ r.dateS.toList ∧ sep ∉ r.chargeS.toList

instance (r : ERow) : Decidable (pipeFree r) := by
  unfold pipeFree; infer_instance

theorem append_sep_inj : ∀ (a c : List Char) {b d : List Char}, sep ∉ a → sep ∉ c →
    a ++ sep :: b = c ++ sep :: d → a = c ∧ b = d := by
  intro a
  induction a with
  | nil =>
    intro c b d _ hc h
    cases c with
    | nil => simpa using h
    | cons y ys =>
      simp only [List.nil_append, List.cons_append, List.cons.injEq] at h
      exact absurd (by rw [h.1]; exact List.mem_cons_self y ys) hc
  | cons x xs ih =>
    intro c b d ha hc h
    cases c with
    | nil =>
      simp only [List.cons_append, List.nil_append, List.cons.injEq] at h
      exact absurd (by rw [← h.1]; exact List.mem_cons_self x xs) ha
    | cons y ys =>
      simp only [List.cons_append, List.cons.injEq] at h
      obtain ⟨rfl, h2⟩ := h
      have hrec := ih ys (fun hm => ha (List.mem_cons_of_mem _ hm))
        (fun hm => hc (List.mem_cons_of_mem _ hm)) h2
      exact ⟨by rw [hrec.1], hrec.2⟩

theorem duplicate_key_eq_iff (s r : ERow) (hs : pipeFree s) (hr : pipeFree r) :
    duplicate_key s = duplicate_key r ↔ sameKeyFields s r := by
  constructor
  · intro h
    unfold duplicate_key at h
    obtain ⟨h1, h2⟩ := append_sep_inj _ _ hs.1 hr.1 h
    obtain ⟨h3, h4⟩ := append_sep_inj _ _ hs.2.1 hr.2.1 h2
    obtain ⟨h5, h6⟩ := append_sep_inj _ _ hs.2.2.1 hr.2.2.1 h4
    obtain ⟨h7, h8⟩ := append_sep_inj _ _ hs.2.2.2.1 hr.2.2.2.1 h6
    have hinj : ∀ a b : String, a.toList = b.toList → a = b := by
      intro a b hab
      cases a; cases b
      exact congrArg String.mk (by simpa [String.toList] using hab)
    exact ⟨hinj _ _ h1, hinj _ _ h3, hinj _ _ h5, hinj _ _ h7, hinj _ _ h8⟩
  · intro ⟨e1, e2, e3, e4, e5⟩
    unfold duplicate_key
    rw [e1, e2, e3, e4, e5]

theorem is_exact_duplicate_iff (t : List ERow) (r : ERow)
    (hpipe : ∀ x ∈ t, pipeFree x) (hr : pipeFree r) :
    is_exact_duplicate t r = true ↔
      ∃ s ∈ t, sameKeyFields s r ∧ s.claim_id < r.claim_id := by
  unfold is_exact_duplicate
  rw [List.any_eq_true]
  constructor
  · rintro ⟨s, hs, hb⟩
    simp only [Bool.and_eq_true, decide_eq_true_eq] at hb
    exact ⟨s, hs, (duplicate_key_eq_iff s r (hpipe s hs) hr).mp hb.1, hb.2⟩
  · rintro ⟨s, hs, hk, hlt⟩
    refine ⟨s, hs, ?_⟩
    simp only [Bool.and_eq_true, decide_eq_true_eq]
    exact ⟨(duplicate_key_eq_iff s r (hpipe s hs) hr).mpr hk, hlt⟩

theorem min?_of_perm {α : Type} [LinearOrder α] {l l' : List α} (h : l.Perm l') :
    l.min? = l'.min? := by
  have hchar : ∀ (xs : List α) (a : α), xs.min? = some a ↔ a ∈ xs ∧ ∀ b ∈ xs, a ≤ b := by
    intro xs a
    haveI : Std.Antisymm (fun x1 x2 : α => x1 ≤ x2) := ⟨fun h1 h2 => le_antisymm h1 h2⟩
    exact List.min?_eq_some_iff
      (fun x => le_refl x) (fun x y => min_choice x y) (fun x y z => le_min_iff)
  rcases hm : l'.min? with _ | m
  · rw [List.min?_eq_none_iff] at hm
    subst hm
    rw [List.min?_eq_none_iff]
    exact h.eq_nil
  · rw [hchar] at hm
    rw [hchar]
    exact ⟨h.mem_iff.mpr hm.1, fun b hb => hm.2 b (h.mem_iff.mp hb)⟩

/-- C3 as the spec states it: in every group of claims sharing the five
typed key fields, the claim with the smallest claim id is never marked an
exact duplicate, and every other claim of the group is marked, pointing at
that smallest claim id. -/
def exactDupClaim (t : List ERow) : Prop :=
  ∀ r ∈ t,
    ((∀ s ∈ t, sameKeyFields s r → r.claim_id ≤ s.claim_id) →
      is_exact_duplicate t r = false)
    ∧ ((∃ s ∈ t, sameKeyFields s r ∧ s.claim_id < r.claim_id) →
      is_exact_duplicate t r = true
        ∧ ∃ m, exact_duplicate_of t r = some m
            ∧ (∃ u ∈ t, sameKeyFields u r ∧ u.claim_id = m)
            ∧ ∀ u ∈ t, sameKeyFields u r → m ≤ u.claim_id)

def rowPipe1 : ERow := ⟨"CLM001", "A|B", "C", "P", "D", "10"⟩

def rowPipe2 : ERow := ⟨"CLM002", "A", "B|C", "P", "D", "10"⟩

/-- C3, counterexample. `concat_ws("|", ...)` flattens the key, so two
rows with different key tuples but colliding flattened keys
(`("A|B","C",...)` vs `("A","B|C",...)`) land in one partition: `CLM002` is
the only member — hence the smallest claim id — of its tuple group, yet it
is marked an exact duplicate. -/
theorem exact_duplicates_key_collision : ¬ exactDupClaim [rowPipe1, rowPipe2] := by
  intro h
  have hmem : rowPipe2 ∈ [rowPipe1, rowPipe2] := by simp
  have hmin : ∀ s ∈ [rowPipe1, rowPipe2], sameKeyFields s rowPipe2 →
      rowPipe2.claim_id ≤ s.claim_id := by
    intro s hs hk
    simp only [List.mem_cons, List.not_mem_nil, or_false] at hs
    rcases hs with h1 | h1
    · exact absurd hk.1 (by rw [h1]; decide)
    · rw [h1]
  have hfalse := (h rowPipe2 hmem).1 hmin
  have htrue : is_exact_duplicate [rowPipe1, rowPipe2] rowPipe2 = true := by
    unfold is_exact_duplicate
    rw [List.any_eq_true]
    refine ⟨rowPipe1, by simp, ?_⟩
    simp only [Bool.and_eq_true, decide_eq_true_eq]
    refine ⟨by decide, ?_⟩
    rw [show rowPipe1.claim_id = "CLM001" from rfl, show rowPipe2.claim_id = "CLM002" from rfl,
      String.lt_iff_toList_lt]
    decide
  rw [hfalse] at htrue
  cases htrue

/-- C3, amended. The claim holds whenever no key field contains the
`"|"` separator (so that the flattened `concat_ws` key determines the key
tuple) and claim ids are pairwise distinct: the smallest claim id of each
key-tuple group is never marked, every other member is marked with
`exact_duplicate_of` equal to the group's smallest claim id, and both
outputs are invariant under permuting the input rows. -/
theorem exact_duplicates_smallest_id_original (t : List ERow)
    (hpipe : ∀ x ∈ t, pipeFree x)
    (hids : List.Pairwise (fun a b : ERow => a.claim_id ≠ b.claim_id) t) :
    ∀ r ∈ t,
      ((∀ s ∈ t, sameKeyFields s r → r.claim_id ≤ s.claim_id) →
        is_exact_duplicate t r = false)
      ∧ ((∃ s ∈ t, sameKeyFields s r ∧ s.claim_id < r.claim_id) →
        is_exact_duplicate t r = true
          ∧ ∃ m, exact_duplicate_of t r = some m
              ∧ (∃ u ∈ t, sameKeyFields u r ∧ u.claim_id = m)
              ∧ ∀ u ∈ t, sameKeyFields u r → m ≤ u.claim_id)
      ∧ (∀ t', t.Perm t' →
          is_exact_duplicate t' r = is_exact_duplicate t r
          ∧ exact_duplicate_of t' r = exact_duplicate_of t r) := by
  intro r hrmem
  have hr : pipeFree r := hpipe r hrmem
  have hperm : ∀ t', t.Perm t' →
      is_exact_duplicate t' r = is_exact_duplicate t r
      ∧ exact_duplicate_of t' r = exact_duplicate_of t r := by
    intro t' hp
    have hany : is_exact_duplicate t' r = is_exact_duplicate t r := by
      rw [Bool.eq_iff_iff]
      unfold is_exact_duplicate
      rw [List.any_eq_true, List.any_eq_true]
      exact ⟨fun ⟨s, hs, hb⟩ => ⟨s, hp.mem_iff.mpr hs, hb⟩,
        fun ⟨s, hs, hb⟩ => ⟨s, hp.mem_iff.mp hs, hb⟩⟩
    refine ⟨hany, ?_⟩
    unfold exact_duplicate_of
    rw [hany]
    rcases is_exact_duplicate t r with _ | _
    · simp
    · simp only [if_true]
      unfold first_claim_in_group
      exact min?_of_perm ((hp.symm.filter _).map _)
  have hmin_char : ∀ s ∈ t, (decide (duplicate_key s = duplicate_key r) : Bool) = true
      ↔ sameKeyFields s r := by
    intro s hs
    rw [decide_eq_true_eq]
    exact duplicate_key_eq_iff s r (hpipe s hs) hr
  refine ⟨?_, ?_, hperm⟩
  · intro hminimal
    by_contra hne
    rw [Bool.not_eq_false] at hne
    rcases (is_exact_duplicate_iff t r hpipe hr).mp hne with ⟨s, hs, hk, hlt⟩
    exact absurd (hminimal s hs hk) (not_le.mpr hlt)
  · intro hex
    have hflag : is_exact_duplicate t r = true :=
      (is_exact_duplicate_iff t r hpipe hr).mpr hex
    refine ⟨hflag, ?_⟩
    have hrfilter : r ∈ t.filter fun s => decide (duplicate_key s = duplicate_key r) := by
      rw [List.mem_filter]
      exact ⟨hrmem, by rw [decide_eq_true_eq]⟩
    have hne : ((t.filter fun s => decide (duplicate_key s = duplicate_key r)).map
        (fun s => s.claim_id)) ≠ [] := by
      intro hnil
      rw [List.map_eq_nil_iff] at hnil
      rw [hnil] at hrfilter
      cases hrfilter
    rcases hm : ((t.filter fun s => decide (duplicate_key s = duplicate_key r)).map
        (fun s => s.claim_id)).min? with _ | m
    · rw [List.min?_eq_none_iff] at hm
      exact absurd hm hne
    · haveI : Std.Antisymm (fun x1 x2 : String => x1 ≤ x2) :=
        ⟨fun h1 h2 => le_antisymm h1 h2⟩
      have hchar := List.min?_eq_some_iff (α := String)
        (fun x => le_refl x)
        (fun x y => min_choice x y) (fun x y z => le_min_iff) |>.mp hm
      refine ⟨m, ?_, ?_, ?_⟩
      · unfold exact_duplicate_of
        rw [hflag, if_pos rfl]
        unfold first_claim_in_group
        exact hm
      · rcases List.mem_map.mp hchar.1 with ⟨u, hu, huid⟩
        rcases List.mem_filter.mp hu with ⟨hut, huk⟩
        exact ⟨u, hut, (hmin_char u hut).mp huk, huid⟩
      · intro u hut huk
        exact hchar.2 u.claim_id (List.mem_map.mpr ⟨u,
          List.mem_filter.mpr ⟨hut, (hmin_char u hut).mpr huk⟩, rfl⟩)

def rowCLM1 : ERow := ⟨"CLM001", "A", "B", "P", "D", "10"⟩

def rowCLM2 : ERow := ⟨"CLM002", "A", "B", "P", "D", "10"⟩

/-- Witness for the amended C3: two identical claims differing only in
claim id — `CLM001` (the smaller) is not marked, `CLM002` is marked an
exact duplicate pointing at a minimal claim id of the group. -/
theorem exact_duplicates_smallest_id_original_witness :
    is_exact_duplicate [rowCLM1, rowCLM2] rowCLM1 = false
    ∧ is_exact_duplicate [rowCLM1, rowCLM2] rowCLM2 = true
    ∧ ∃ m, exact_duplicate_of [rowCLM1, rowCLM2] rowCLM2 = some m
        ∧ (∃ u ∈ [rowCLM1, rowCLM2], sameKeyFields u rowCLM2 ∧ u.claim_id = m)
        ∧ ∀ u ∈ [rowCLM1, rowCLM2], sameKeyFields u rowCLM2 → m ≤ u.claim_id := by
  have hpipe : ∀ x ∈ [rowCLM1, rowCLM2], pipeFree x := by
    intro x hx
    simp only [List.mem_cons, List.not_mem_nil, or_false] at hx
    rcases hx with h | h
    · rw [h]; decide
    · rw [h]; decide
  have hids : List.Pairwise (fun a b : ERow => a.claim_id ≠ b.claim_id)
      [rowCLM1, rowCLM2] := by
    simp only [List.pairwise_cons, List.mem_cons]
    refine ⟨?_, by simp⟩
    intro b hb
    rcases hb with h | h
    · rw [h]; decide
    · simp at h
  have hlt : rowCLM1.claim_id < rowCLM2.claim_id := by
    rw [show rowCLM1.claim_id = "CLM001" from rfl, show rowCLM2.claim_id = "CLM002" from rfl,
      String.lt_iff_toList_lt]
    decide
  have h1 := exact_duplicates_smallest_id_original [rowCLM1, rowCLM2] hpipe hids
    rowCLM1 (by simp)
  have h2 := exact_duplicates_smallest_id_original [rowCLM1, rowCLM2] hpipe hids
    rowCLM2 (by simp)
  refine ⟨?_, ?_⟩
  · refine h1.1 ?_
    intro s hs hk
    simp only [List.mem_cons, List.not_mem_nil, or_false] at hs
    rcases hs with h | h
    · rw [h]
    · rw [h]; exact le_of_lt hlt
  · exact h2.2.1 ⟨rowCLM1, by simp, by decide, hlt⟩

/-! ## Near duplicates (duplicates.py, `_detect_near_duplicates`, lines 164-253)

The self-join pairs each left row `A` with every right row `B` passing the
join condition; the similarity score is computed per pair, pairs below the
threshold are filtered out, and `row_number` over
`(partitionBy claim_id, orderBy desc(similarity_score))` keeps one best
match per left row.  The `orderBy` has no tie-break, so Spark's choice among
equal-similarity matches is arbitrary; the embedding refines it
deterministically to the earliest qualifying candidate in table order.
`F.datediff` of two dates is their difference in days, so `service_date` is
carried as a day number. -/

structure NRow where
  claim_id : String
  patient_id : String
  provider_id : String
  procedure_code : String
  service_date : ℤ
  charge_amount : ℚ
  is_exact_duplicate : Bool

/-- The join condition (duplicates.py lines 206-213): same patient and
provider, a strictly smaller right claim id, service dates within the
window, and a left row not already an exact duplicate. -/
def nearCandidates (windowDays : ℤ) (t : List NRow) (A : NRow) : List NRow :=
  t.filter fun B =>
    decide (A.patient_id = B.patient_id) && decide (A.provider_id = B.provider_id)
    && decide (A.claim_id ≠ B.claim_id) && decide (B.claim_id < A.claim_id)
    && decide (|A.service_date - B.service_date| ≤ windowDays)
    && !A.is_exact_duplicate

/-- Embeds `similarity_score = procedure_match * 0.6 + charge_similarity * 0.4`
with `charge_similarity = 1 - abs(a - b) / greatest(a, b)`.  When the
greatest charge is 0 the division yields null (Spark semantics), the null
propagates into the score, and the `>= threshold` filter drops the pair. -/
def similarityScore (A B : NRow) : Option ℚ :=
  if max A.charge_amount B.charge_amount = 0 then none
  else some ((if A.procedure_code = B.procedure_code then (1:ℚ) else 0) * (6/10)
    + (1 - |A.charge_amount - B.charge_amount| / max A.charge_amount B.charge_amount)
      * (4/10))

/-- The `similarity_score >= threshold` filter; a null score is dropped. -/
def qualifies (threshold : ℚ) (A B : NRow) : Bool :=
  match similarityScore A B with
  | none => false
  | some s => decide (s ≥ threshold)

/-- The similarity used by the `orderBy desc(similarity_score)` ranking
(every ranked pair has a non-null score). -/
def simVal (A B : NRow) : ℚ := (similarityScore A B).getD 0

/-- Embeds `row_number() == 1` over `(partitionBy claim_id, orderBy
desc(similarity_score))`: the first maximal-similarity element, ties going
to the earlier list position. -/
def argmaxFirst (f : NRow → ℚ) (l : List NRow) : Option NRow :=
  l.foldl (fun acc B =>
    match acc with
    | none => some B
    | some C => if f B > f C then some B else some C) none

/-- Embeds `near_duplicate_of`: the best qualifying match's claim id (null when no
pair passed the filter — the left join then leaves the column null). -/
def near_duplicate_of (threshold : ℚ) (windowDays : ℤ) (t : List NRow) (A : NRow) :
    Option String :=
  (argmaxFirst (simVal A) ((nearCandidates windowDays t A).filter (qualifies threshold A))).map
    (fun B => B.claim_id)

/-- Embeds `is_near_duplicate = near_duplicate_of.isNotNull`. -/
def is_near_duplicate (threshold : ℚ) (windowDays : ℤ) (t : List NRow) (A : NRow) : Bool :=
  (near_duplicate_of threshold windowDays t A).isSome

theorem argmaxFirst_step_mem (f : NRow → ℚ) :
    ∀ (l : List NRow) (acc : Option NRow) (C : NRow),
      l.foldl (fun acc B =>
        match acc with
        | none => some B
        | some C => if f B > f C then some B else some C) acc = some C →
      acc = some C ∨ C ∈ l := by
  intro l
  induction l with
  | nil => intro acc C h; exact Or.inl h
  | cons B l' ih =>
    intro acc C h
    rcases ih _ C h with hstep | hmem
    · rcases acc with _ | D
      · exact Or.inr (by rw [← Option.some.inj hstep]; exact List.mem_cons_self B l')
      · have hstep2 : (if f B > f D then some B else some D) = some C := hstep
        by_cases hgt : f B > f D
        · rw [if_pos hgt] at hstep2
          exact Or.inr (by rw [← Option.some.inj hstep2]; exact List.mem_cons_self B l')
        · rw [if_neg hgt] at hstep2
          exact Or.inl hstep2
    · exact Or.inr (List.mem_cons_of_mem B hmem)

theorem argmaxFirst_step_maximal (f : NRow → ℚ) :
    ∀ (l : List NRow) (acc : Option NRow) (C : NRow),
      l.foldl (fun acc B =>
        match acc with
        | none => some B
        | some C => if f B > f C then some B else some C) acc = some C →
      (∀ D, acc = some D → f D ≤ f C) ∧ ∀ B ∈ l, f B ≤ f C := by
  intro l
  induction l with
  | nil =>
    intro acc C h
    exact ⟨fun D hD => by rw [hD] at h; rw [Option.some.inj h], by simp⟩
  | cons B l' ih =>
    intro acc C h
    have hrec := ih _ C h
    have hBle : f B ≤ f C := by
      rcases acc with _ | D
      · exact hrec.1 B rfl
      · by_cases hgt : f B > f D
        · exact hrec.1 B (by
            show (if f B > f D then some B else some D) = some B
            rw [if_pos hgt])
        · exact le_trans (not_lt.mp hgt) (hrec.1 D (by
            show (if f B > f D then some B else some D) = some D
            rw [if_neg hgt]))
    refine ⟨?_, ?_⟩
    · intro D hD
      subst hD
      by_cases hgt : f B > f D
      · exact le_trans (le_of_lt hgt) (hrec.1 B (by
          show (if f B > f D then some B else some D) = some B
          rw [if_pos hgt]))
      · exact hrec.1 D (by
          show (if f B > f D then some B else some D) = some D
          rw [if_neg hgt])
    · intro X hX
      rcases List.mem_cons.mp hX with rfl | hX'
      · exact hBle
      · exact hrec.2 X hX'

theorem argmaxFirst_ne_none_of_some_acc (f : NRow → ℚ) :
    ∀ (l : List NRow) (D : NRow),
      l.foldl (fun acc B =>
        match acc with
        | none => some B
        | some C => if f B > f C then some B else some C) (some D) ≠ none := by
  intro l
  induction l with
  | nil => intro D h; cases h
  | cons B l' ih =>
    intro D h
    have h2 : List.foldl (fun acc B =>
        match acc with
        | none => some B
        | some C => if f B > f C then some B else some C)
        (if f B > f D then some B else some D) l' = none := h
    by_cases hgt : f B > f D
    · rw [if_pos hgt] at h2
      exact ih B h2
    · rw [if_neg hgt] at h2
      exact ih D h2

theorem argmaxFirst_eq_none_iff (f : NRow → ℚ) (l : List NRow) :
    argmaxFirst f l = none ↔ l = [] := by
  constructor
  · intro h
    cases l with
    | nil => rfl
    | cons B l' =>
      unfold argmaxFirst at h
      rw [List.foldl_cons] at h
      exact absurd h (argmaxFirst_ne_none_of_some_acc f l' B)
  · intro h
    rw [h]
    rfl

/-- C8 as the spec states it: an out-of-window pair never makes `A` a
near-duplicate of `B`, and within the window `A` is marked near-duplicate of
`B` (pointer and all) exactly when the pair's similarity reaches the
threshold. -/
def nearDupClaim (threshold : ℚ) (windowDays : ℤ) (t : List NRow) : Prop :=
  ∀ A ∈ t, ∀ B ∈ t,
    A.patient_id = B.patient_id → A.provider_id = B.provider_id →
    B.claim_id < A.claim_id → A.is_exact_duplicate = false →
    ((|A.service_date - B.service_date| > windowDays →
        near_duplicate_of threshold windowDays t A ≠ some B.claim_id)
      ∧ (|A.service_date - B.service_date| ≤ windowDays →
          (near_duplicate_of threshold windowDays t A = some B.claim_id ↔
            (if A.procedure_code = B.procedure_code then (1:ℚ) else 0) * (6/10)
              + (1 - |A.charge_amount - B.charge_amount|
                  / max A.charge_amount B.charge_amount) * (4/10) ≥ threshold)))

def rowN1 : NRow := ⟨"CLM1", "P", "R", "X", 0, 100, false⟩

def rowN2 : NRow := ⟨"CLM2", "P", "R", "X", 0, 95, false⟩

def rowN9 : NRow := ⟨"CLM9", "P", "R", "X", 0, 100, false⟩

def nearTable3 : List NRow := [rowN1, rowN2, rowN9]

theorem nearCandidates_eval : nearCandidates 30 nearTable3 rowN9 = [rowN1, rowN2] := by
  have h19 : (("CLM1":String) < "CLM9") := by rw [String.lt_iff_toList_lt]; decide
  have h29 : (("CLM2":String) < "CLM9") := by rw [String.lt_iff_toList_lt]; decide
  have h99 : ¬(("CLM9":String) < "CLM9") := lt_irrefl _
  simp [nearCandidates, nearTable3, rowN1, rowN2, rowN9, List.filter,
    decide_eq_true h19, decide_eq_true h29, decide_eq_false h99]
  rfl

theorem sim_rowN9_rowN1 : similarityScore rowN9 rowN1 = some 1 := by
  simp only [similarityScore, rowN9, rowN1]
  rw [if_neg (by norm_num : ¬(max (100:ℚ) 100 = 0))]
  norm_num [max_self]

theorem sim_rowN9_rowN2 : similarityScore rowN9 rowN2 = some (98/100) := by
  simp only [similarityScore, rowN9, rowN2]
  rw [if_neg (by rw [max_eq_left (by norm_num : (95:ℚ) ≤ 100)]; norm_num)]
  rw [max_eq_left (by norm_num : (95:ℚ) ≤ 100),
    abs_of_nonneg (by norm_num : (0:ℚ) ≤ 100 - 95)]
  norm_num

theorem near_dup_of_eval :
    near_duplicate_of (9/10) 30 nearTable3 rowN9 = some "CLM1" := by
  unfold near_duplicate_of
  rw [nearCandidates_eval]
  have hq1 : qualifies (9/10) rowN9 rowN1 = true := by
    unfold qualifies
    rw [sim_rowN9_rowN1]
    exact decide_eq_true (by norm_num)
  have hq2 : qualifies (9/10) rowN9 rowN2 = true := by
    unfold qualifies
    rw [sim_rowN9_rowN2]
    exact decide_eq_true (by norm_num)
  rw [show ([rowN1, rowN2].filter (qualifies (9/10) rowN9)) = [rowN1, rowN2] by
    simp [List.filter, hq1, hq2]]
  unfold argmaxFirst
  simp only [List.foldl_cons, List.foldl_nil]
  rw [show (if simVal rowN9 rowN2 > simVal rowN9 rowN1 then some rowN2 else some rowN1)
      = some rowN1 by
    rw [if_neg]
    unfold simVal
    rw [sim_rowN9_rowN1, sim_rowN9_rowN2]
    norm_num]
  rfl

/-- C8, counterexample. Only a single best match is recorded per claim:
`CLM9` has two qualifying within-window partners, `CLM1` (similarity 1.0)
and `CLM2` (similarity 0.98 ≥ 0.9); the code points `CLM9` at `CLM1` only,
so the claim's "A is marked near-duplicate of B exactly when the pair's
similarity reaches the threshold" fails for the pair `(CLM9, CLM2)`. -/
theorem near_duplicate_pair_pointer_fails : ¬ nearDupClaim (9/10) 30 nearTable3 := by
  intro h
  have h2 := (h rowN9 (by simp [nearTable3]) rowN2 (by simp [nearTable3]) rfl rfl
    (show rowN2.claim_id < rowN9.claim_id by
      rw [show rowN2.claim_id = "CLM2" from rfl, show rowN9.claim_id = "CLM9" from rfl,
        String.lt_iff_toList_lt]
      decide)
    rfl).2 (show |rowN9.service_date - rowN2.service_date| ≤ 30 by norm_num [rowN9, rowN2])
  have hsim : (if rowN9.procedure_code = rowN2.procedure_code then (1:ℚ) else 0) * (6/10)
      + (1 - |rowN9.charge_amount - rowN2.charge_amount|
          / max rowN9.charge_amount rowN2.charge_amount) * (4/10) ≥ 9/10 := by
    rw [show rowN9.procedure_code = "X" from rfl, show rowN2.procedure_code = "X" from rfl,
      if_pos rfl,
      show rowN9.charge_amount = 100 from rfl, show rowN2.charge_amount = 95 from rfl,
      max_eq_left (by norm_num : (95:ℚ) ≤ 100),
      abs_of_nonneg (by norm_num : (0:ℚ) ≤ 100 - 95)]
    norm_num
  have hp := h2.mpr hsim
  rw [near_dup_of_eval] at hp
  have : ("CLM1" : String) = rowN2.claim_id := Option.some.inj hp
  rw [show rowN2.claim_id = "CLM2" from rfl] at this
  exact absurd this (by decide)

/-- C8, amended. With pairwise-distinct claim ids: (1) a pair whose
service dates differ by more than the window never becomes `A`'s recorded
near-duplicate pointer; (2) `A` is flagged near-duplicate iff some claim of
the table shares its patient and provider, has a smaller claim id, lies
within the window, `A` is no exact duplicate, and the pair's (non-null)
similarity reaches the threshold; (3) the recorded pointer is the claim id
of a maximal-similarity qualifying candidate — not necessarily of every
qualifying partner. -/
theorem near_duplicates_semantics (threshold : ℚ) (windowDays : ℤ) (t : List NRow)
    (hids : List.Pairwise (fun a b : NRow => a.claim_id ≠ b.claim_id) t) :
    ∀ A ∈ t,
      (∀ B ∈ t, |A.service_date - B.service_date| > windowDays →
        near_duplicate_of threshold windowDays t A ≠ some B.claim_id)
      ∧ (is_near_duplicate threshold windowDays t A = true ↔
          ∃ B ∈ t, A.patient_id = B.patient_id ∧ A.provider_id = B.provider_id
            ∧ B.claim_id < A.claim_id
            ∧ |A.service_date - B.service_date| ≤ windowDays
            ∧ A.is_exact_duplicate = false
            ∧ ∃ s, similarityScore A B = some s ∧ threshold ≤ s)
      ∧ (∀ m, near_duplicate_of threshold windowDays t A = some m →
          ∃ B ∈ nearCandidates windowDays t A, qualifies threshold A B = true
            ∧ B.claim_id = m
            ∧ ∀ C ∈ nearCandidates windowDays t A, qualifies threshold A C = true →
                simVal A C ≤ simVal A B) := by
  intro A hA
  have hqual_iff : ∀ B, qualifies threshold A B = true ↔
      ∃ s, similarityScore A B = some s ∧ threshold ≤ s := by
    intro B
    unfold qualifies
    rcases hs : similarityScore A B with _ | s
    · simp
    · simp only [decide_eq_true_eq]
      constructor
      · intro h; exact ⟨s, rfl, h⟩
      · rintro ⟨s', hs', h⟩; rw [Option.some.inj hs']; exact h
  have hcand_iff : ∀ B, B ∈ nearCandidates windowDays t A ↔
      B ∈ t ∧ A.patient_id = B.patient_id ∧ A.provider_id = B.provider_id
        ∧ A.claim_id ≠ B.claim_id ∧ B.claim_id < A.claim_id
        ∧ |A.service_date - B.service_date| ≤ windowDays
        ∧ A.is_exact_duplicate = false := by
    intro B
    unfold nearCandidates
    rw [List.mem_filter]
    simp only [Bool.and_eq_true, decide_eq_true_eq, Bool.not_eq_eq_eq_not, Bool.not_true]
    constructor
    · rintro ⟨hB, ⟨⟨⟨⟨h1, h2⟩, h3⟩, h4⟩, h5⟩, h6⟩
      exact ⟨hB, h1, h2, h3, h4, h5, h6⟩
    · rintro ⟨hB, h1, h2, h3, h4, h5, h6⟩
      exact ⟨hB, ⟨⟨⟨⟨h1, h2⟩, h3⟩, h4⟩, h5⟩, h6⟩
  refine ⟨?_, ?_, ?_⟩
  · intro B hB hfar heq
    unfold near_duplicate_of at heq
    rcases Option.map_eq_some'.mp heq with ⟨D, hD, hDid⟩
    have hDmem := argmaxFirst_step_mem (simVal A) _ none D hD
    rcases hDmem with hnone | hDmem
    · cases hnone
    · have hDc := (List.mem_filter.mp hDmem).1
      have hDcand := (hcand_iff D).mp hDc
      have hDB : D = B := by
        by_contra hne
        exact absurd hDid (List.Pairwise.forall
          (fun {x y} (h : (fun a b : NRow => a.claim_id ≠ b.claim_id) x y) => Ne.symm h)
          hids hDcand.1 hB hne)
      rw [hDB] at hDcand
      exact absurd hDcand.2.2.2.2.2.1 (not_le.mpr hfar)
  · unfold is_near_duplicate near_duplicate_of
    rw [Option.isSome_map']
    constructor
    · intro hsome
      rcases Option.isSome_iff_exists.mp hsome with ⟨D, hD⟩
      have hDmem := argmaxFirst_step_mem (simVal A) _ none D hD
      rcases hDmem with hnone | hDmem
      · cases hnone
      · rcases List.mem_filter.mp hDmem with ⟨hDc, hDq⟩
        rcases (hcand_iff D).mp hDc with ⟨hDt, h1, h2, h3, h4, h5, h6⟩
        rcases (hqual_iff D).mp hDq with ⟨s, hs, hts⟩
        exact ⟨D, hDt, h1, h2, h4, h5, h6, s, hs, hts⟩
    · rintro ⟨B, hB, h1, h2, h4, h5, h6, s, hs, hts⟩
      have hBc : B ∈ nearCandidates windowDays t A := (hcand_iff B).mpr
        ⟨hB, h1, h2, fun hne => by
          rw [hne] at h4; exact absurd h4 (lt_irrefl _), h4, h5, h6⟩
      have hBf : B ∈ (nearCandidates windowDays t A).filter (qualifies threshold A) :=
        List.mem_filter.mpr ⟨hBc, (hqual_iff B).mpr ⟨s, hs, hts⟩⟩
      rw [Option.isSome_iff_ne_none]
      intro hnone
      rw [argmaxFirst_eq_none_iff] at hnone
      rw [hnone] at hBf
      cases hBf
  · intro m hm
    unfold near_duplicate_of at hm
    rcases Option.map_eq_some'.mp hm with ⟨D, hD, hDid⟩
    have hDmem := argmaxFirst_step_mem (simVal A) _ none D hD
    rcases hDmem with hnone | hDmem
    · cases hnone
    · rcases List.mem_filter.mp hDmem with ⟨hDc, hDq⟩
      refine ⟨D, hDc, hDq, hDid, ?_⟩
      intro C hCc hCq
      exact (argmaxFirst_step_maximal (simVal A) _ none D hD).2 C
        (List.mem_filter.mpr ⟨hCc, hCq⟩)

def rowW2 : NRow := ⟨"CLM2", "P", "R", "X", 10, 100, false⟩

/-- Witness for the amended C8: `CLM2`, ten days after `CLM1` with equal
charge and procedure (similarity 1.0 ≥ 0.9), is flagged a near duplicate. -/
theorem near_duplicates_semantics_witness :
    is_near_duplicate (9/10) 30 [rowN1, rowW2] rowW2 = true := by
  have hids : List.Pairwise (fun a b : NRow => a.claim_id ≠ b.claim_id) [rowN1, rowW2] := by
    simp only [List.pairwise_cons, List.mem_cons]
    refine ⟨?_, by simp⟩
    intro b hb
    rcases hb with h | h
    · rw [h]; decide
    · simp at h
  have h := (near_duplicates_semantics (9/10) 30 [rowN1, rowW2] hids rowW2 (by simp)).2.1
  refine h.mpr ⟨rowN1, by simp, rfl, rfl, ?_, ?_, rfl, 1, ?_, by norm_num⟩
  · show rowN1.claim_id < rowW2.claim_id
    rw [show rowN1.claim_id = "CLM1" from rfl, show rowW2.claim_id = "CLM2" from rfl,
      String.lt_iff_toList_lt]
    decide
  · show |rowW2.service_date - rowN1.service_date| ≤ 30
    norm_num [rowW2, rowN1]
  · simp only [similarityScore, rowW2, rowN1]
    rw [if_neg (by norm_num : ¬(max (100:ℚ) 100 = 0))]
    norm_num [max_self]

/-! ## Temporal outliers (outliers.py, `detect_temporal_outliers`, lines 323-381)

`_year = F.year(service_date)` and `_week = F.weekofyear(service_date)` are
carried as row fields.  The window
`partitionBy(provider_id).orderBy(_year, _week).rowsBetween(-4, -1)`
averages, within the provider's rows sorted by `(year, week)`, the up-to-four
rows immediately preceding the current row.  The `orderBy` breaks ties
between rows of one `(year, week)` arbitrarily; the embedding refines this
to a deterministic insertion sort of the provider's rows. -/

structure TRow where
  provider_id : String
  year : ℤ
  week : ℤ
  charge_amount : ℚ
deriving DecidableEq

/-- The `orderBy(_year, _week)` order. -/
def ywLE (a b : TRow) : Prop :=
  a.year < b.year ∨ (a.year = b.year ∧ a.week ≤ b.week)

instance : DecidableRel ywLE := fun a b => by
  unfold ywLE; infer_instance

/-- One provider's rows in `(year, week)` order. -/
def sortedPartition (t : List TRow) (p : String) : List TRow :=
  List.insertionSort ywLE (t.filter fun r => decide (r.provider_id = p))

/-- The `rowsBetween(-4, -1)` frame at position `i` of the sorted partition:
the up-to-four rows immediately before row `i` (the current row excluded). -/
def rollingWindowRows (l : List TRow) (i : ℕ) : List TRow :=
  (l.take i).drop (i - 4)

/-- Embeds `_rolling_avg = F.avg(charge_amount).over(...rowsBetween(-4, -1))`:
null over an empty frame. -/
def rollingAvg (l : List TRow) (i : ℕ) : Option ℚ :=
  if (rollingWindowRows l i).length = 0 then none
  else some (((rollingWindowRows l i).map fun r => r.charge_amount).sum
    / (rollingWindowRows l i).length)

/-- Embeds `temporal_spike_flag = F.when(rolling_avg.isNotNull & (rolling_avg > 0),
charge > 3 * rolling_avg).otherwise(False)`. -/
def temporalSpikeFlag (l : List TRow) (i : ℕ) (r : TRow) : Bool :=
  match rollingAvg l i with
  | none => false
  | some a => if a > 0 then decide (r.charge_amount > 3 * a) else false

/-- Embeds `detect_temporal_outliers`: every provider partition is sorted and each
row paired with its flag. -/
def detect_temporal_outliers (t : List TRow) : List (TRow × Bool) :=
  ((t.map fun r => r.provider_id).dedup).flatMap fun p =>
    (sortedPartition t p).mapIdx fun i r =>
      (r, temporalSpikeFlag (sortedPartition t p) i r)

theorem rollingWindowRows_length (l : List TRow) (i : ℕ) (hi : i ≤ l.length) :
    (rollingWindowRows l i).length = min 4 i := by
  unfold rollingWindowRows
  rw [List.length_drop, List.length_take]
  omega

/-- C7. At position `i` of a provider's `(year, week)`-ordered rows, the
flag is true iff there is at least one preceding row, the trailing mean of
the up-to-four immediately preceding charges (current row strictly excluded)
is positive, and the current charge exceeds 3 times that mean; the mean,
when defined, is the sum of the `min 4 i` preceding charges divided by their
number, and the first row of a provider's history is never flagged. -/
theorem temporal_flag_iff (t : List TRow) (p : String) (i : ℕ)
    (hi : i < (sortedPartition t p).length) :
    (temporalSpikeFlag (sortedPartition t p) i ((sortedPartition t p).get ⟨i, hi⟩) = true ↔
      1 ≤ i ∧ ∃ a, rollingAvg (sortedPartition t p) i = some a ∧ 0 < a
        ∧ ((sortedPartition t p).get ⟨i, hi⟩).charge_amount > 3 * a)
    ∧ (∀ a, rollingAvg (sortedPartition t p) i = some a →
        a = ((rollingWindowRows (sortedPartition t p) i).map fun r => r.charge_amount).sum
          / (min 4 i : ℕ))
    ∧ (i = 0 →
        temporalSpikeFlag (sortedPartition t p) i ((sortedPartition t p).get ⟨i, hi⟩)
          = false) := by
  set l := sortedPartition t p with hl
  have hlen : (rollingWindowRows l i).length = min 4 i :=
    rollingWindowRows_length l i (le_of_lt hi)
  refine ⟨?_, ?_, ?_⟩
  · unfold temporalSpikeFlag
    rcases havg : rollingAvg l i with _ | a
    · dsimp only
      constructor
      · intro h; cases h
      · rintro ⟨-, a, ha, -⟩; cases ha
    · dsimp only
      have hne : (rollingWindowRows l i).length ≠ 0 := by
        unfold rollingAvg at havg
        intro h0
        rw [if_pos h0] at havg
        cases havg
      have h1i : 1 ≤ i := by omega
      by_cases hpos : a > 0
      · rw [if_pos hpos]
        simp only [decide_eq_true_eq]
        constructor
        · intro h
          exact ⟨h1i, a, rfl, hpos, h⟩
        · rintro ⟨-, a', ha', -, hgt⟩
          rw [← Option.some.inj ha'] at hgt
          exact hgt
      · rw [if_neg hpos]
        constructor
        · intro h; cases h
        · rintro ⟨-, a', ha', hpos', -⟩
          rw [← Option.some.inj ha'] at hpos'
          exact absurd hpos' hpos
  · intro a ha
    unfold rollingAvg at ha
    by_cases h0 : (rollingWindowRows l i).length = 0
    · rw [if_pos h0] at ha; cases ha
    · rw [if_neg h0] at ha
      rw [← Option.some.inj ha, hlen]
  · intro h0
    subst h0
    unfold temporalSpikeFlag rollingAvg
    rw [if_pos (by rw [hlen]; rfl)]

/-- A five-week provider history: four weeks at charge 10, then one claim of
100 in week 5. -/
def temporalTable : List TRow :=
  [⟨"PRV", 2024, 1, 10⟩, ⟨"PRV", 2024, 2, 10⟩, ⟨"PRV", 2024, 3, 10⟩,
   ⟨"PRV", 2024, 4, 10⟩, ⟨"PRV", 2024, 5, 100⟩]

theorem temporalTable_sorted : sortedPartition temporalTable "PRV" = temporalTable := by
  decide

/-- Witness for C7: in `temporalTable` the week-5 claim (trailing mean 10,
charge 100 > 30) is flagged, and the provider's first row is not. -/
theorem temporal_flag_iff_witness :
    ∃ h4 : 4 < (sortedPartition temporalTable "PRV").length,
      temporalSpikeFlag (sortedPartition temporalTable "PRV") 4
        ((sortedPartition temporalTable "PRV").get ⟨4, h4⟩) = true
      ∧ ∃ h0 : 0 < (sortedPartition temporalTable "PRV").length,
        temporalSpikeFlag (sortedPartition temporalTable "PRV") 0
          ((sortedPartition temporalTable "PRV").get ⟨0, h0⟩) = false := by
  have hlen : (sortedPartition temporalTable "PRV").length = 5 := by
    rw [temporalTable_sorted]
    rfl
  have h4 : 4 < (sortedPartition temporalTable "PRV").length := by omega
  have h0 : 0 < (sortedPartition temporalTable "PRV").length := by omega
  refine ⟨h4, ?_, h0, ?_⟩
  · refine (temporal_flag_iff temporalTable "PRV" 4 h4).1.mpr ⟨by norm_num, 10, ?_, by norm_num, ?_⟩
    · unfold rollingAvg rollingWindowRows
      rw [temporalTable_sorted]
      rw [show ((temporalTable.take 4).drop (4 - 4)) = temporalTable.take 4 from rfl]
      rw [show temporalTable.take 4
          = [⟨"PRV", 2024, 1, 10⟩, ⟨"PRV", 2024, 2, 10⟩, ⟨"PRV", 2024, 3, 10⟩,
             ⟨"PRV", 2024, 4, 10⟩] from rfl]
      rw [if_neg (by simp)]
      simp only [List.map_cons, List.map_nil, List.sum_cons, List.sum_nil, List.length_cons,
        List.length_nil]
      norm_num
    · rw [show (sortedPartition temporalTable "PRV").get ⟨4, h4⟩
          = ⟨"PRV", 2024, 5, 100⟩ by rw [List.get_of_eq temporalTable_sorted]; rfl]
      norm_num
  · exact (temporal_flag_iff temporalTable "PRV" 0 h0).2.2 rfl

end FraudDetection
